import Mathlib

/-!
Verification development for the client-side search-and-selection
orchestration layer of the SEC 10-K explorer application.

The definitions below are a shallow embedding of the TypeScript source:
the data model of `api-client.ts`, the `TenKFileExplorer` component
(company filter effect, search-orchestrator effect, document cache,
document drawer) and the `TakeHomeLayout` component (company filter
effect with debounce and cancellation flag).  Asynchronous effects are
modelled as explicit state machines driven by event traces: the
environment chooses when each in-flight response resolves, and each
step function mirrors exactly what the corresponding resolution
callback writes to React state.
-/

namespace TenK

/-- Model of JavaScript `String.prototype.trim` (strip ASCII whitespace
from both ends), written structurally so the kernel can evaluate it. -/
def isWhite (c : Char) : Bool :=
  c = ' ' || c = '\t' || c = '\n' || c = '\r'

/-- `trimStr s` models `s.trim()`. -/
def trimStr (s : String) : String :=
  ⟨((s.toList.dropWhile isWhite).reverse.dropWhile isWhite).reverse⟩

/-- `CompanyTickerExchange` from `api-client.ts`. -/
structure Company where
  cik : Nat
  name : String
  ticker : String
  exchange : Option String
deriving DecidableEq

/-- `DocumentMetadata` from `api-client.ts`.  The TypeScript declares
`year : number`, but the explorer guards against a missing/unusable
year at runtime (`Number(a.year) || 0`), so the year is embedded as an
optional integer; `none` models an absent or non-numeric year. -/
structure DocumentMetadata where
  doc_id : String
  cik : String
  filename : String
  year : Option Int
  file_path : String
  total_sections : Nat
  total_chars : Nat
  ingested_at : String
  processor_version : String
deriving DecidableEq

/-- `DocumentSection` from `api-client.ts`. -/
structure DocumentSection where
  section_id : String
  section_name : String
  content : String
deriving DecidableEq

/-- `SearchResultItem` from `api-client.ts`.  Score fields are floats
in the source; they are embedded as optional rationals (no claim
depends on score arithmetic). -/
structure SearchResultItem where
  chunk_id : String
  doc_id : String
  cik : String
  company_name : Option String
  filename : String
  section_name : String
  chunk_text : String
  char_count : Nat
  fts_score : Option Rat
  vector_score : Option Rat
  distance : Option Rat
  combined_score : Option Rat
deriving DecidableEq

/-- `SearchResponse` from `api-client.ts`.  The opaque
`explanation?: Record<string, unknown>` payload is embedded as an
optional string (it is never inspected by the explorer). -/
structure SearchResponse where
  query : String
  method : String
  total_results : Nat
  results : List SearchResultItem
  search_time_ms : Option Rat
  explanation : Option String
deriving DecidableEq

/-- The three search-mode ids of `SEARCH_MODE_OPTIONS`:
`fts` (lexical), `vector` (semantic), `hybrid` (combined). -/
inductive SearchMode where
  | fts
  | vector
  | hybrid
deriving DecidableEq

/-- `SEARCH_RESULTS_LIMIT` in `TenKFileExplorer`. -/
def SEARCH_RESULTS_LIMIT : Nat := 20

/-- `DOCUMENT_RESULTS_LIMIT` in `TenKFileExplorer`. -/
def DOCUMENT_RESULTS_LIMIT : Nat := 200

/-! ## Document cache

`documentCache` is a plain JS object keyed by `doc_id`.  It is embedded
as an association list; `Cache.set` mirrors `next[doc.doc_id] = doc`
(replace the binding in place if the key exists, else append). -/

/-- The document cache: `doc_id ↦ DocumentMetadata`. -/
abbrev Cache := List (String × DocumentMetadata)

/-- Lookup a key, mirroring `documentCache[id]`. -/
def Cache.get : Cache → String → Option DocumentMetadata
  | [], _ => none
  | p :: ps, k => if p.1 = k then some p.2 else Cache.get ps k

/-- `next[k] = d` on a JS object: overwrite in place, else append. -/
def Cache.set : Cache → String → DocumentMetadata → Cache
  | [], k, d => [(k, d)]
  | p :: ps, k, d => if p.1 = k then (k, d) :: ps else p :: Cache.set ps k d

/-- `cacheDocuments` from `TenKFileExplorer`: for each document with a
truthy `doc_id` store it under that id; documents with an empty
`doc_id` are skipped.  (The early return on an empty input list is the
same as folding over `[]`.) -/
def cacheDocuments (docs : List DocumentMetadata) (c : Cache) : Cache :=
  docs.foldl (fun acc d => if d.doc_id ≠ "" then Cache.set acc d.doc_id d else acc) c

/-! ## Selection state

`selectedCompanies` is a `Record<number, CompanyTickerExchange>` keyed
by `cik`; JS enumerates integer-like keys in ascending order, so the
record is embedded as a cik-sorted association list. -/

/-- Selection state: association list from `cik` to `Company`. -/
abbrev Selection := List (Nat × Company)

/-- `Object.values(selectedCompanies)` (ascending-cik order). -/
def Selection.values (s : Selection) : List Company :=
  s.map Prod.snd

/-- Key membership: `Boolean(selectedCompanies[cik])`. -/
def Selection.has (s : Selection) (k : Nat) : Bool :=
  s.any (fun p => p.1 = k)

/-- `delete next[company.cik]`. -/
def Selection.erase (s : Selection) (k : Nat) : Selection :=
  s.filter (fun p => p.1 ≠ k)

/-- `next[company.cik] = company` keeping ascending numeric key order. -/
def Selection.insert : Selection → Nat → Company → Selection
  | [], k, c => [(k, c)]
  | p :: ps, k, c =>
    if k < p.1 then (k, c) :: p :: ps
    else if k = p.1 then (k, c) :: ps
    else p :: Selection.insert ps k c

/-- `handleCompanyToggle` from `TenKFileExplorer`. -/
def handleCompanyToggle (s : Selection) (c : Company) : Selection :=
  if s.has c.cik then s.erase c.cik else s.insert c.cik c

/-- `selectedTickers` from `TenKFileExplorer`:
`selectedCompaniesList.map(c => c.ticker).filter(Boolean)`.
Empty tickers are dropped; duplicates are NOT removed. -/
def selectedTickers (s : Selection) : List String :=
  (s.values.map Company.ticker).filter (fun t => t ≠ "")

/-- `selectedTickersKey = selectedTickers.join(",")`. -/
def selectedTickersKey (s : Selection) : String :=
  String.intercalate "," (selectedTickers s)

/-! ## Company filter: merge and sort -/

/-- ASCII model of `toLowerCase` on one character. -/
def lowerChar (c : Char) : Char :=
  if 65 ≤ c.toNat ∧ c.toNat ≤ 90 then Char.ofNat (c.toNat + 32) else c

/-- The sort key of `sortCompanies`: the code points of the
lower-cased company name (`a.name?.toLowerCase() ?? ""`). -/
def nameKey (c : Company) : List Nat :=
  c.name.toList.map (fun ch => (lowerChar ch).toNat)

/-- Structural lexicographic comparison of code-point sequences,
modelling `localeCompare(...) ≤ 0` of the comparator. -/
def lexLeB : List Nat → List Nat → Bool
  | [], _ => true
  | _ :: _, [] => false
  | a :: as, b :: bs =>
    if a < b then true
    else if b < a then false
    else lexLeB as bs

/-- Case-insensitive name order used by `sortCompanies`:
`a.name.toLowerCase().localeCompare(b.name.toLowerCase()) ≤ 0`. -/
def nameLe (a b : Company) : Prop :=
  lexLeB (nameKey a) (nameKey b) = true

instance : DecidableRel nameLe := fun a b =>
  inferInstanceAs (Decidable (lexLeB (nameKey a) (nameKey b) = true))

instance : IsTotal Company nameLe := ⟨fun a b => by
  unfold nameLe
  have h : ∀ xs ys : List Nat, lexLeB xs ys = true ∨ lexLeB ys xs = true := by
    intro xs
    induction xs with
    | nil => intro ys; left; rfl
    | cons a as ih =>
      intro ys
      cases ys with
      | nil => right; rfl
      | cons b bs =>
        simp only [lexLeB]
        rcases Nat.lt_trichotomy a b with h | h | h
        · left; simp [h]
        · subst h
          simpa [Nat.lt_irrefl] using ih bs
        · right; simp [h]
  exact h _ _⟩

instance : IsTrans Company nameLe := ⟨fun a b c => by
  unfold nameLe
  have h : ∀ xs ys zs : List Nat,
      lexLeB xs ys = true → lexLeB ys zs = true → lexLeB xs zs = true := by
    intro xs
    induction xs with
    | nil => intro ys zs _ _; rfl
    | cons a as ih =>
      intro ys zs h1 h2
      cases ys with
      | nil => simp [lexLeB] at h1
      | cons b bs =>
        cases zs with
        | nil => simp [lexLeB] at h2
        | cons c cs =>
          simp only [lexLeB] at h1 h2 ⊢
          by_cases hab : a < b
          · by_cases hbc : b < c
            · simp [show a < c by omega]
            · by_cases hcb : c < b
              · simp [hbc, hcb] at h2
              · have hbceq : b = c := by omega
                subst hbceq
                simp [hab]
          · by_cases hba : b < a
            · simp [hab, hba] at h1
            · have habeq : a = b := by omega
              subst habeq
              simp only [Nat.lt_irrefl, if_false] at h1 h2 ⊢
              by_cases hac : a < c
              · simp [hac]
              · by_cases hca : c < a
                · simp [hac, hca] at h2
                · have haceq : a = c := by omega
                  subst haceq
                  simp only [Nat.lt_irrefl, if_false] at h2 ⊢
                  exact ih bs cs h1 h2
  exact h _ _ _⟩

/-- `sortCompanies` from `TenKFileExplorer`/`TakeHomeLayout`:
a stable sort by lower-cased company name ascending (JS `Array.sort`
is stable; the unique stable sort is insertion sort). -/
def sortCompanies (l : List Company) : List Company :=
  l.insertionSort nameLe

/-- One step of `merged.set(company.cik, company)` on a JS `Map`:
replace the value in place if the key is present, else append. -/
def mapSet : List (Nat × Company) → Nat → Company → List (Nat × Company)
  | [], k, v => [(k, v)]
  | p :: ps, k, v => if p.1 = k then (k, v) :: ps else p :: mapSet ps k v

/-- `responses.flat().forEach(c => merged.set(c.cik, c))`. -/
def mergeFold (cs : List Company) : List (Nat × Company) :=
  cs.foldl (fun m c => mapSet m c.cik c) []

/-- The merged company list of the company-filter effect:
`Array.from(merged.values())` after folding all responses. -/
def mergeByCik (responses : List (List Company)) : List Company :=
  (mergeFold responses.flatten).map Prod.snd

/-- JS-Map lookup on the assoc list built by `mergeFold`. -/
def lookupCik : List (Nat × Company) → Nat → Option Company
  | [], _ => none
  | p :: ps, k => if p.1 = k then some p.2 else lookupCik ps k

/-- The last company with the given `cik` in a list (the one a
last-write-wins merge keeps). -/
def lastCompanyWith (k : Nat) : List Company → Option Company
  | [] => none
  | c :: cs =>
    match lastCompanyWith k cs with
    | some d => some d
    | none => if c.cik = k then some c else none

/-! ## Document-list sort (document-search branch) -/

/-- `Number(a.year) || 0`: a document without a usable year counts as
year zero. -/
def yearKey (d : DocumentMetadata) : Int :=
  d.year.getD 0

/-- Comparator `(a, b) => yearB - yearA`: year descending. -/
def yearGe (a b : DocumentMetadata) : Prop :=
  yearKey b ≤ yearKey a

instance : DecidableRel yearGe := fun a b =>
  inferInstanceAs (Decidable (yearKey b ≤ yearKey a))

instance : IsTotal DocumentMetadata yearGe :=
  ⟨fun a b => (le_total (yearKey b) (yearKey a)).imp id id⟩

instance : IsTrans DocumentMetadata yearGe :=
  ⟨fun _ _ _ hab hbc => le_trans hbc hab⟩

/-- `[...response].sort((a, b) => (Number(b.year)||0) - (Number(a.year)||0))`:
stable sort by year descending. -/
def sortDocs (l : List DocumentMetadata) : List DocumentMetadata :=
  l.insertionSort yearGe

/-! ## Search orchestrator

The `useEffect` with dependencies `[cacheDocuments, query, searchMode,
selectedTickersKey]` in `TenKFileExplorer`.  Each run of the effect is
an *orchestration pass*: the effect body captures a `cancelled` flag,
and the cleanup function (run when any dependency changes) sets the
previous pass's flag.  A resolution callback checks the flag before
touching state. -/

/-- The component state the orchestrator reads and writes. -/
structure Store where
  resultsLoading : Bool
  resultsError : Option String
  searchResponse : Option SearchResponse
  documentResults : List DocumentMetadata
  cache : Cache
  selected : Selection
  searchMode : SearchMode
deriving DecidableEq

/-- How a non-idle pass settles: the chunk-search branch succeeds, the
document-search branch succeeds, or either branch throws. -/
inductive Outcome where
  | chunkOk (resp : SearchResponse)
  | docOk (docs : List DocumentMetadata)
  | fail (msg : String)
deriving DecidableEq

/-- What an uncancelled pass writes when it settles:
* `chunkOk`: `setSearchResponse(response); setDocumentResults([])`;
* `docOk`: sort by year descending, `setDocumentResults(sortedDocs);
  setSearchResponse(null); cacheDocuments(sortedDocs)`;
* `fail`: `setResultsError(message); setSearchResponse(null);
  setDocumentResults([])`;
followed by `setResultsLoading(false)` in the `finally` block. -/
def applyOutcome (s : Store) : Outcome → Store
  | .chunkOk resp =>
    { s with searchResponse := some resp, documentResults := [],
             resultsLoading := false }
  | .docOk docs =>
    { s with documentResults := sortDocs docs, searchResponse := none,
             cache := cacheDocuments (sortDocs docs) s.cache,
             resultsLoading := false }
  | .fail msg =>
    { s with resultsError := some msg, searchResponse := none,
             documentResults := [], resultsLoading := false }

/-- The idle branch (`!activeQuery && !hasTickers`): clear everything,
no request. -/
def idleWrites (s : Store) : Store :=
  { s with resultsLoading := false, resultsError := none,
           searchResponse := none, documentResults := [] }

/-- The request the orchestrator decides to issue:
either one chunk search on the endpoint selected by the mode, or one
document search, or nothing (idle). -/
inductive IssuedRequest where
  | chunk (mode : SearchMode) (query : String) (limit : Nat)
      (tickers : Option (List String))
  | doc (tickers : String) (limit : Nat)
deriving DecidableEq

/-- The effective request for the current inputs, mirroring the effect
body: `activeQuery = query.trim()`; a non-empty query issues one chunk
request with the fixed cap and `tickers` only when non-empty; an empty
query with tickers issues one document request with the comma-joined
tickers and the fixed cap; otherwise no request. -/
def plannedRequest (q : String) (m : SearchMode) (sel : Selection) :
    Option IssuedRequest :=
  if trimStr q ≠ "" then
    some (.chunk m (trimStr q) SEARCH_RESULTS_LIMIT
      (if selectedTickers sel ≠ [] then some (selectedTickers sel) else none))
  else if selectedTickers sel ≠ [] then
    some (.doc (selectedTickersKey sel) DOCUMENT_RESULTS_LIMIT)
  else
    none

/-- One orchestration pass: its closure's `cancelled` flag and the
input snapshot it captured. -/
structure Pass where
  cancelled : Bool
  query : String
  mode : SearchMode
  tickers : List String
deriving DecidableEq

/-- Orchestrator machine state: the component store plus every pass
ever started (the pass index plays the role of the closure identity). -/
structure OrchState where
  store : Store
  passes : List Pass
deriving DecidableEq

/-- Events of the orchestrator machine: a dependency change
(re-render with new query/mode/selection) or the asynchronous
settlement of the request of pass `j`. -/
inductive OrchEvent where
  | change (q : String) (m : SearchMode) (sel : Selection)
  | settle (j : Nat) (o : Outcome)

/-- The effect cleanup: set the `cancelled` flag of the most recent
pass (older passes are already cancelled). -/
def markLast : List Pass → List Pass
  | [] => []
  | [p] => [{ p with cancelled := true }]
  | p :: q :: rest => p :: markLast (q :: rest)

/-- One step of the orchestrator machine.

On `change`: React runs the previous effect's cleanup (cancelling the
previous pass), then the new effect body: the idle branch clears all
result state and starts no pass; otherwise `setResultsLoading(true);
setResultsError(null)` and a new pass starts.

On `settle j o`: the resolution callback of pass `j` runs; it returns
without touching state if its `cancelled` flag is set, else applies
the writes of its outcome. -/
def orchStep (s : OrchState) : OrchEvent → OrchState
  | .change q m sel =>
    let store := { s.store with selected := sel, searchMode := m }
    let ps := markLast s.passes
    if trimStr q = "" ∧ selectedTickers sel = [] then
      { store := idleWrites store, passes := ps }
    else
      { store := { store with resultsLoading := true, resultsError := none },
        passes := ps ++ [{ cancelled := false, query := q, mode := m,
                           tickers := selectedTickers sel }] }
  | .settle j o =>
    match s.passes[j]? with
    | some p => if p.cancelled then s else { s with store := applyOutcome s.store o }
    | none => s

/-- Initial component state. -/
def initStore : Store :=
  { resultsLoading := false, resultsError := none, searchResponse := none,
    documentResults := [], cache := [], selected := [], searchMode := .hybrid }

/-- Run the orchestrator machine over an event trace. -/
def orchRun (es : List OrchEvent) : OrchState :=
  es.foldl orchStep { store := initStore, passes := [] }

/-! ## Metadata enrichment after a successful chunk search -/

/-- `response.results.map(i => i.doc_id).filter(Boolean)`. -/
def docIdsOf (resp : SearchResponse) : List String :=
  (resp.results.map SearchResultItem.doc_id).filter (fun id => id ≠ "")

/-- `docIds.filter(id => !documentCacheRef.current[id])`: the doc ids
whose metadata is fetched (one `getDocumentById` per list element). -/
def missingDocIds (resp : SearchResponse) (c : Cache) : List String :=
  (docIdsOf resp).filter (fun id => (Cache.get c id).isNone)

/-- The enrichment writes: each fetch either succeeds (`some doc`) or
fails (`null` after the per-document `catch`); the nulls are filtered
out and the successes cached
(`cacheDocuments(docs.filter(Boolean))`). -/
def enrichCache (resp : SearchResponse) (c : Cache)
    (fetch : String → Option DocumentMetadata) : Cache :=
  cacheDocuments ((missingDocIds resp c).filterMap fetch) c

/-! ## Company filter machines

Two independent implementations exist in the source:

* `TenKFileExplorer`'s effect on `companySearch` has **no** staleness
  guard: every issued request's `.then` callback unconditionally calls
  `setSearchResults`.
* `TakeHomeLayout`'s effect debounces and captures a `cancelled` flag;
  the cleanup (run on every `companySearch` change) sets the flag and
  clears the timer, so only the latest pending request can write.

Both are modelled on the same event alphabet: an `input s` event is a
change of the filter text to `s`, and `resolve j rs` is the
resolution of the `j`-th issued request pair with the Gateway
responses `rs` (name response, and, when issued, ticker response).
The visible `searchResults` value is tagged with the input text whose
request produced it. -/

inductive FilterEvent where
  | input (s : String)
  | resolve (j : Nat) (rs : List (List Company))

/-- State of `TenKFileExplorer`'s company filter: the visible results
(tagged with the request text that produced them) and the texts of the
request pairs issued so far. -/
structure ExplorerFilterState where
  results : Option (String × List Company)
  reqs : List String
deriving DecidableEq

/-- `TenKFileExplorer` company-search step.  An empty trimmed text
sets `searchResults` to `undefined`; a non-empty text issues a request
pair.  A resolution of any previously issued request merges and sorts
its responses and writes them — there is no staleness check. -/
def explorerFilterStep (st : ExplorerFilterState) :
    FilterEvent → ExplorerFilterState
  | .input s =>
    if trimStr s = "" then { st with results := none }
    else { st with reqs := st.reqs ++ [trimStr s] }
  | .resolve j rs =>
    match st.reqs[j]? with
    | some t => { st with results := some (t, sortCompanies (mergeByCik rs)) }
    | none => st

/-- Run the explorer filter over a trace. -/
def explorerFilterRun (es : List FilterEvent) : ExplorerFilterState :=
  es.foldl explorerFilterStep { results := none, reqs := [] }

/-- State of `TakeHomeLayout`'s company filter: visible results (tagged
with the producing text), the number of requests issued, the one
pending request that is not cancelled (index and text), and the trim
of the most recent input. -/
structure LayoutFilterState where
  results : Option (String × List Company)
  issued : Nat
  alive : Option (Nat × String)
  lastTrim : Option String
deriving DecidableEq

/-- `TakeHomeLayout` company-search step.  Every text change runs the
previous effect's cleanup (`cancelled = true`, `clearTimeout`), so at
most the latest request is alive; an empty trimmed text additionally
clears the results and issues nothing.  A resolution writes results
only if its request is still the alive one. -/
def layoutFilterStep (st : LayoutFilterState) :
    FilterEvent → LayoutFilterState
  | .input s =>
    if trimStr s = "" then
      { st with alive := none, results := none, lastTrim := some "" }
    else
      { st with alive := some (st.issued, trimStr s), issued := st.issued + 1,
                lastTrim := some (trimStr s) }
  | .resolve j rs =>
    match st.alive with
    | some (k, t) =>
      if j = k then
        { st with results := some (t, sortCompanies (mergeByCik rs)) }
      else st
    | none => st

/-- Run the layout filter over a trace. -/
def layoutFilterRun (es : List FilterEvent) : LayoutFilterState :=
  es.foldl layoutFilterStep
    { results := none, issued := 0, alive := none, lastTrim := none }

/-! ## Document drawer -/

/-- Result of one drawer sub-fetch. -/
inductive Fetched (α : Type) where
  | ok (val : α)
  | fail (msg : String)
deriving DecidableEq

/-- Drawer-related component state of `TenKFileExplorer`. -/
structure DrawerState where
  activeDocId : Option String
  activeDocMeta : Option DocumentMetadata
  activeSections : Option (List DocumentSection)
  drawerLoading : Bool
  drawerError : Option String
  cache : Cache
deriving DecidableEq

/-- Drawer events: the synchronous prefix of `openDocumentDrawer`,
`closeDocumentDrawer`, and the resolutions of the two sub-fetches
(document metadata, section list) issued by an earlier open call. -/
inductive DrawerEvent where
  | openDoc (docId : String) (fallback : Option DocumentMetadata)
  | close
  | metaResolve (r : Fetched DocumentMetadata)
  | sectionsResolve (r : Fetched (List DocumentSection))

/-- One step of the drawer machine, mirroring `openDocumentDrawer` and
`closeDocumentDrawer`.  The resolution callbacks run unconditionally:
`openDocumentDrawer` captures no relevance token, and
`closeDocumentDrawer` invalidates nothing. -/
def drawerStep (st : DrawerState) : DrawerEvent → DrawerState
  | .openDoc docId fallback =>
    if docId = "" then st
    else
      let st' := { st with activeDocId := some docId, drawerLoading := true,
                           drawerError := none, activeSections := none }
      match Cache.get st.cache docId with
      | some m => { st' with activeDocMeta := some m }
      | none =>
        match fallback with
        | some m => { st' with activeDocMeta := some m }
        | none => st'
  | .close =>
    { st with activeDocId := none, activeDocMeta := none,
              activeSections := none, drawerError := none,
              drawerLoading := false }
  | .metaResolve (.ok d) =>
    { st with cache := cacheDocuments [d] st.cache, activeDocMeta := some d }
  | .metaResolve (.fail msg) =>
    { st with drawerError := some msg }
  | .sectionsResolve (.ok secs) =>
    { st with activeSections := some secs, drawerLoading := false }
  | .sectionsResolve (.fail msg) =>
    { st with drawerError := some msg, drawerLoading := false }

/-- Run the drawer machine over a trace from the initial (closed)
state with the given cache. -/
def drawerRun (c : Cache) (es : List DrawerEvent) : DrawerState :=
  es.foldl drawerStep
    { activeDocId := none, activeDocMeta := none, activeSections := none,
      drawerLoading := false, drawerError := none, cache := c }

/-! ## Characterization helpers (used only to state theorems) -/

/-- Number of entries of the cache. -/
def Cache.size (c : Cache) : Nat :=
  List.length c

/-- The last document with the given `doc_id` in a list: the entry a
left-to-right last-write-wins insertion keeps for that key. -/
def lastWith (k : String) : List DocumentMetadata → Option DocumentMetadata
  | [] => none
  | d :: ds =>
    match lastWith k ds with
    | some e => some e
    | none => if d.doc_id = k then some d else none

/-! ## Concrete sample values for witnesses and counterexamples -/

/-- Sample document metadata. -/
def mkDoc (id : String) (y : Option Int) : DocumentMetadata :=
  { doc_id := id, cik := "320193", filename := id ++ ".json", year := y,
    file_path := "/data/" ++ id, total_sections := 15, total_chars := 1000,
    ingested_at := "2024-01-01", processor_version := "v1" }

/-- Sample chunk result pointing at a document. -/
def mkItem (chunkId docId : String) : SearchResultItem :=
  { chunk_id := chunkId, doc_id := docId, cik := "320193",
    company_name := none, filename := docId ++ ".json",
    section_name := "section_1", chunk_text := "text", char_count := 4,
    fts_score := none, vector_score := none, distance := none,
    combined_score := none }

def dA : DocumentMetadata := mkDoc "doc-a" (some 2019)

def dB : DocumentMetadata := mkDoc "doc-b" (some 2018)

def dC : DocumentMetadata := mkDoc "doc-c" (some 2017)

def dNoId : DocumentMetadata := mkDoc "" (some 2019)

def dNoYear : DocumentMetadata := mkDoc "doc-n" none

/-- Five chunk results referencing three documents
(`doc-a` twice, `doc-b` once, `doc-c` twice). -/
def resp5 : SearchResponse :=
  { query := "revenue", method := "hybrid", total_results := 5,
    results := [mkItem "c1" "doc-a", mkItem "c2" "doc-a",
                mkItem "c3" "doc-b", mkItem "c4" "doc-c",
                mkItem "c5" "doc-c"],
    search_time_ms := none, explanation := none }

/-- A cache already holding `doc-a` and `doc-b` but not `doc-c`. -/
def cache2 : Cache := [("doc-a", dA), ("doc-b", dB)]

def cAcme : Company := { cik := 10, name := "Acme", ticker := "A", exchange := none }

def cAard : Company := { cik := 20, name := "Aardvark", ticker := "AA", exchange := none }

def cApple1 : Company := { cik := 1, name := "Apple Inc", ticker := "AAPL", exchange := none }

def cApple2 : Company := { cik := 1, name := "APPLE INC", ticker := "AAPL", exchange := none }

/-- Two distinct selected companies sharing the ticker `AAPL`. -/
def selDup : Selection :=
  [(1, { cik := 1, name := "Alpha Corp", ticker := "AAPL", exchange := none }),
   (2, { cik := 2, name := "Beta Corp", ticker := "AAPL", exchange := none })]

/-- Gateway responses for filter text `A` / `AA`. -/
def rssA : List (List Company) := [[cAcme]]

def rssAA : List (List Company) := [[cAard]]

/-- Rapid filter changes `A` then `AA`; the `AA` response resolves
first, the stale `A` response resolves last. -/
def trC1 : List FilterEvent :=
  [.input "A", .input "AA", .resolve 1 rssAA, .resolve 0 rssA]

/-- A lexical (full-text) and a semantic (vector) search response for
the same query. -/
def lexResp : SearchResponse :=
  { query := "profit", method := "fts", total_results := 1,
    results := [mkItem "L1" "doc-a"], search_time_ms := none,
    explanation := none }

def semResp : SearchResponse :=
  { query := "profit", method := "vector", total_results := 1,
    results := [mkItem "V1" "doc-b"], search_time_ms := none,
    explanation := none }

/-- Mode switch from lexical to semantic while the lexical request is
pending; the stale lexical response resolves last. -/
def trC2 : List OrchEvent :=
  [.change "profit" .fts [], .change "profit" .vector [],
   .settle 1 (.chunkOk semResp), .settle 0 (.chunkOk lexResp)]

def secBiz : DocumentSection :=
  { section_id := "s1", section_name := "section_1", content := "Business" }

/-- Open a document (metadata supplied as fallback, so only the
section fetch is pending), close the view, then the pending section
fetch resolves. -/
def trC9 : List DrawerEvent :=
  [.openDoc "doc-a" (some dA), .close, .sectionsResolve (.ok [secBiz])]

/-! ## Helper lemmas: document cache -/

theorem Cache.get_set (c : Cache) (k k' : String) (d : DocumentMetadata) :
    Cache.get (Cache.set c k d) k' = if k = k' then some d else Cache.get c k' := by
  induction c with
  | nil => simp [Cache.set, Cache.get]
  | cons p ps ih =>
    by_cases hpk : p.1 = k
    · by_cases hkk : k = k'
      · simp [Cache.set, Cache.get, hpk, hkk]
      · simp [Cache.set, Cache.get, hpk, hkk, hpk ▸ hkk]
    · by_cases hpk' : p.1 = k'
      · have h1 : ¬ k = k' := fun h => hpk (h ▸ hpk')
        have h2 : ¬ k' = k := fun h => h1 h.symm
        simp [Cache.set, Cache.get, hpk, hpk', h1, h2]
      · simp [Cache.set, Cache.get, hpk, hpk', ih]

theorem cacheDocuments_get (docs : List DocumentMetadata) (c : Cache)
    (k : String) (hk : k ≠ "") :
    Cache.get (cacheDocuments docs c) k =
      match lastWith k docs with
      | some d => some d
      | none => Cache.get c k := by
  induction docs generalizing c with
  | nil => simp [cacheDocuments, lastWith]
  | cons d ds ih =>
    have step : cacheDocuments (d :: ds) c =
        cacheDocuments ds (if d.doc_id ≠ "" then Cache.set c d.doc_id d else c) := by
      simp [cacheDocuments]
    rw [step, ih]
    cases hl : lastWith k ds with
    | some e => simp [lastWith, hl]
    | none =>
      simp only [lastWith, hl]
      by_cases hid : d.doc_id = k
      · have hne : d.doc_id ≠ "" := hid ▸ hk
        simp [hid, hne, hk, Cache.get_set]
      · by_cases hemp : d.doc_id = ""
        · have h2 : ¬ ("" = k) := fun h => hk h.symm
          simp [hid, hemp, h2]
        · simp [hid, hemp, Cache.get_set]

theorem cacheDocuments_skip (docs : List DocumentMetadata) (c : Cache)
    (h : ∀ d ∈ docs, d.doc_id = "") : cacheDocuments docs c = c := by
  induction docs generalizing c with
  | nil => rfl
  | cons d ds ih =>
    have hd : d.doc_id = "" := h d (List.mem_cons_self d ds)
    have step : cacheDocuments (d :: ds) c =
        cacheDocuments ds (if d.doc_id ≠ "" then Cache.set c d.doc_id d else c) := by
      simp [cacheDocuments]
    rw [step]
    simp only [hd, ne_eq, not_true_eq_false, if_neg, ite_false]
    exact ih c (fun e he => h e (List.mem_cons_of_mem d he))

theorem lastWith_isSome_of_mem (docs : List DocumentMetadata)
    (d : DocumentMetadata) (hd : d ∈ docs) :
    (lastWith d.doc_id docs).isSome = true := by
  induction docs with
  | nil => cases hd
  | cons e es ih =>
    rcases List.mem_cons.mp hd with h | h
    · subst h
      cases hl : lastWith d.doc_id es with
      | some f => simp [lastWith, hl]
      | none => simp [lastWith, hl]
    · have := ih h
      cases hl : lastWith d.doc_id es with
      | some f => simp [lastWith, hl]
      | none => simp [hl] at this

/-! ## Helper lemmas: company merge -/

theorem lookupCik_mapSet (m : List (Nat × Company)) (k k' : Nat) (v : Company) :
    lookupCik (mapSet m k v) k' = if k = k' then some v else lookupCik m k' := by
  induction m with
  | nil => simp [mapSet, lookupCik]
  | cons p ps ih =>
    by_cases hpk : p.1 = k
    · by_cases hkk : k = k'
      · simp [mapSet, lookupCik, hpk, hkk]
      · simp [mapSet, lookupCik, hpk, hkk, hpk ▸ hkk]
    · by_cases hpk' : p.1 = k'
      · have h1 : ¬ k = k' := fun h => hpk (h ▸ hpk')
        have h2 : ¬ k' = k := fun h => h1 h.symm
        simp [mapSet, lookupCik, hpk, hpk', h1, h2]
      · simp [mapSet, lookupCik, hpk, hpk', ih]

theorem lookupCik_foldl_mapSet (cs : List Company)
    (m : List (Nat × Company)) (k : Nat) :
    lookupCik (cs.foldl (fun m c => mapSet m c.cik c) m) k =
      match lastCompanyWith k cs with
      | some c => some c
      | none => lookupCik m k := by
  induction cs generalizing m with
  | nil => simp [lastCompanyWith]
  | cons c cs ih =>
    have step : (c :: cs).foldl (fun m c => mapSet m c.cik c) m =
        cs.foldl (fun m c => mapSet m c.cik c) (mapSet m c.cik c) := by
      simp
    rw [step, ih]
    cases hl : lastCompanyWith k cs with
    | some e => simp [lastCompanyWith, hl]
    | none =>
      simp only [lastCompanyWith, hl]
      by_cases hck : c.cik = k
      · simp [hck, lookupCik_mapSet]
      · simp [hck, lookupCik_mapSet]

theorem mapSet_keys_nodup (m : List (Nat × Company)) (k : Nat) (v : Company)
    (h : (m.map Prod.fst).Nodup) : ((mapSet m k v).map Prod.fst).Nodup := by
  induction m with
  | nil => simp [mapSet]
  | cons p ps ih =>
    simp only [List.map_cons, List.nodup_cons] at h
    by_cases hpk : p.1 = k
    · subst hpk
      simpa [mapSet] using h
    · have hkeys : ((mapSet ps k v).map Prod.fst) =
          if ps.any (fun q => q.1 = k) then ps.map Prod.fst
          else ps.map Prod.fst ++ [k] := by
        clear h ih
        induction ps with
        | nil => simp [mapSet]
        | cons q qs ihq =>
          by_cases hqk : q.1 = k
          · simp [mapSet, hqk]
          · by_cases hany : (qs.any fun q => q.1 = k) = true
            · simp [mapSet, hqk, ihq, hany]
            · simp [mapSet, hqk, ihq, hany]
      simp only [mapSet, hpk, if_neg, List.map_cons, List.nodup_cons, ite_false]
      constructor
      · rw [hkeys]
        split
        · exact h.1
        · intro hc
          rcases List.mem_append.mp hc with hc | hc
          · exact h.1 hc
          · exact hpk (List.mem_singleton.mp hc)
      · exact ih h.2

theorem mergeFold_keys_nodup (cs : List Company) :
    ((mergeFold cs).map Prod.fst).Nodup := by
  have h : ∀ (cs : List Company) (m : List (Nat × Company)),
      (m.map Prod.fst).Nodup →
      ((cs.foldl (fun m c => mapSet m c.cik c) m).map Prod.fst).Nodup := by
    intro cs
    induction cs with
    | nil => intro m hm; simpa using hm
    | cons c cs ih =>
      intro m hm
      have step : (c :: cs).foldl (fun m c => mapSet m c.cik c) m =
          cs.foldl (fun m c => mapSet m c.cik c) (mapSet m c.cik c) := by
        simp
      rw [step]
      exact ih _ (mapSet_keys_nodup m c.cik c hm)
  simpa [mergeFold] using h cs [] (by simp)

/-! ## Helper lemmas: orchestrator pass bookkeeping -/

theorem markLast_all_cancelled (ps : List Pass)
    (h : ps.dropLast.all (fun p => p.cancelled) = true) :
    (markLast ps).all (fun p => p.cancelled) = true := by
  induction ps with
  | nil => rfl
  | cons p ps ih =>
    cases ps with
    | nil => simp [markLast]
    | cons q qs =>
      simp only [List.dropLast_cons₂, List.all_cons, Bool.and_eq_true] at h
      simp only [markLast, List.all_cons, Bool.and_eq_true]
      exact ⟨h.1, ih h.2⟩

theorem orchStep_wf (s : OrchState)
    (h : s.passes.dropLast.all (fun p => p.cancelled) = true) (e : OrchEvent) :
    (orchStep s e).passes.dropLast.all (fun p => p.cancelled) = true := by
  cases e with
  | change q m sel =>
    have hall := markLast_all_cancelled s.passes h
    by_cases hidle : trimStr q = "" ∧ selectedTickers sel = []
    · simp only [orchStep, if_pos hidle]
      exact List.all_eq_true.mpr
        (fun p hp => List.all_eq_true.mp hall p (List.dropLast_sublist _ |>.mem hp))
    · simp only [orchStep, if_neg hidle]
      simpa [List.dropLast_concat] using hall
  | settle j o =>
    simp only [orchStep]
    cases hj : s.passes[j]? with
    | none => simpa using h
    | some p =>
      by_cases hc : p.cancelled <;> simp [hc, h]

theorem orchRun_wf (es : List OrchEvent) :
    (orchRun es).passes.dropLast.all (fun p => p.cancelled) = true := by
  have h : ∀ (es : List OrchEvent) (s : OrchState),
      s.passes.dropLast.all (fun p => p.cancelled) = true →
      (es.foldl orchStep s).passes.dropLast.all (fun p => p.cancelled) = true := by
    intro es
    induction es with
    | nil => intro s hs; simpa using hs
    | cons e es ih =>
      intro s hs
      exact ih _ (orchStep_wf s hs e)
  exact h es _ (by simp [initStore])

theorem stale_pass_cancelled (ps : List Pass) (j : Nat) (p : Pass)
    (hall : ps.dropLast.all (fun p => p.cancelled) = true)
    (hj : j + 1 < ps.length) (hp : ps[j]? = some p) :
    p.cancelled = true := by
  induction ps generalizing j with
  | nil => simp at hj
  | cons a ps ih =>
    cases ps with
    | nil => simp at hj
    | cons b qs =>
      simp only [List.dropLast_cons₂, List.all_cons, Bool.and_eq_true] at hall
      cases j with
      | zero =>
        simp only [List.getElem?_cons_zero, Option.some.injEq] at hp
        exact hp ▸ hall.1
      | succ j =>
        have hj' : j + 1 < (b :: qs).length := by
          simpa [Nat.succ_lt_succ_iff] using hj
        exact ih j hall.2 hj' (by simpa using hp)

/-! ## Helper lemmas: store invariant (result views) -/

theorem applyOutcome_views (s : Store) (o : Outcome) :
    (applyOutcome s o).searchResponse = none ∨
    (applyOutcome s o).documentResults = [] := by
  cases o with
  | chunkOk resp => right; simp [applyOutcome]
  | docOk docs => left; simp [applyOutcome]
  | fail msg => left; simp [applyOutcome]

theorem orchStep_views (s : OrchState)
    (h : s.store.searchResponse = none ∨ s.store.documentResults = [])
    (e : OrchEvent) :
    (orchStep s e).store.searchResponse = none ∨
    (orchStep s e).store.documentResults = [] := by
  cases e with
  | change q m sel =>
    by_cases hidle : trimStr q = "" ∧ selectedTickers sel = []
    · simp [orchStep, hidle, idleWrites]
    · simpa [orchStep, hidle] using h
  | settle j o =>
    simp only [orchStep]
    cases hj : s.passes[j]? with
    | none => simpa using h
    | some p =>
      by_cases hc : p.cancelled
      · simpa [hc] using h
      · simpa [hc] using applyOutcome_views s.store o

/-! ## Helper lemmas: layout company filter -/

theorem layoutFilterStep_alive (st : LayoutFilterState)
    (h : ∀ k t, st.alive = some (k, t) → st.lastTrim = some t ∧ t ≠ "")
    (e : FilterEvent) :
    ∀ k t, (layoutFilterStep st e).alive = some (k, t) →
      (layoutFilterStep st e).lastTrim = some t ∧ t ≠ "" := by
  cases e with
  | input s =>
    by_cases hs : trimStr s = ""
    · simp [layoutFilterStep, hs]
    · intro k t ht
      simp only [layoutFilterStep, if_neg hs, Option.some.injEq] at ht
      have ht2 : trimStr s = t := congrArg Prod.snd ht
      simp only [layoutFilterStep, if_neg hs]
      exact ⟨by rw [ht2], ht2 ▸ hs⟩
  | resolve j rs =>
    have halive : (layoutFilterStep st (.resolve j rs)).alive = st.alive := by
      simp only [layoutFilterStep]
      cases ha : st.alive with
      | none => simpa using ha
      | some kt =>
        cases kt with
        | mk k t => by_cases hjk : j = k <;> simp [hjk, ha]
    have hlast : (layoutFilterStep st (.resolve j rs)).lastTrim = st.lastTrim := by
      simp only [layoutFilterStep]
      cases ha : st.alive with
      | none => rfl
      | some kt =>
        cases kt with
        | mk k t => by_cases hjk : j = k <;> simp [hjk, ha]
    intro k t ht
    rw [halive] at ht
    rw [hlast]
    exact h k t ht

theorem layoutFilterRun_alive (es : List FilterEvent) :
    ∀ k t, (layoutFilterRun es).alive = some (k, t) →
      (layoutFilterRun es).lastTrim = some t ∧ t ≠ "" := by
  have h : ∀ (es : List FilterEvent) (st : LayoutFilterState),
      (∀ k t, st.alive = some (k, t) → st.lastTrim = some t ∧ t ≠ "") →
      ∀ k t, (es.foldl layoutFilterStep st).alive = some (k, t) →
        (es.foldl layoutFilterStep st).lastTrim = some t ∧ t ≠ "" := by
    intro es
    induction es with
    | nil => intro st hst; simpa using hst
    | cons e es ih =>
      intro st hst
      exact ih _ (layoutFilterStep_alive st hst e)
  exact h es _ (by simp)

/-! ## Helper lemmas: enrichment -/

theorem missingDocIds_mem (resp : SearchResponse) (c : Cache) (id : String) :
    id ∈ missingDocIds resp c ↔
      (id ∈ resp.results.map SearchResultItem.doc_id ∧ id ≠ "" ∧
        Cache.get c id = none) := by
  simp only [missingDocIds, docIdsOf, List.mem_filter, decide_eq_true_eq,
    Option.isNone_iff_eq_none, ne_eq]
  tauto

theorem lastWith_eq_none (k : String) (l : List DocumentMetadata)
    (h : ∀ e ∈ l, e.doc_id ≠ k) : lastWith k l = none := by
  induction l with
  | nil => rfl
  | cons e es ih =>
    have hes := ih (fun x hx => h x (List.mem_cons_of_mem e hx))
    simp [lastWith, hes, h e (List.mem_cons_self e es)]

theorem lastWith_filterMap (ids : List String)
    (fetch : String → Option DocumentMetadata) (id : String)
    (d : DocumentMetadata)
    (hf : ∀ id' d', fetch id' = some d' → d'.doc_id = id')
    (hid : fetch id = some d) (hmem : id ∈ ids) :
    lastWith id (ids.filterMap fetch) = some d := by
  induction ids with
  | nil => cases hmem
  | cons i is ih =>
    by_cases him : id ∈ is
    · have ih' := ih him
      cases hfi : fetch i with
      | none => simpa [List.filterMap_cons, hfi] using ih'
      | some x => simp [List.filterMap_cons, hfi, lastWith, ih']
    · have hii : i = id := by
        rcases List.mem_cons.mp hmem with h | h
        · exact h.symm
        · exact absurd h him
      subst hii
      have hnone : lastWith i (is.filterMap fetch) = none := by
        refine lastWith_eq_none i _ (fun e he => ?_)
        obtain ⟨id', hid', hfe⟩ := List.mem_filterMap.mp he
        have hed : e.doc_id = id' := hf id' e hfe
        intro hcontra
        exact him (hcontra ▸ hed ▸ hid')
      simp [List.filterMap_cons, hid, lastWith, hnone, hf i d hid]

/-! ## Claim theorems -/

/-- Claim C1, counterexample: in `TenKFileExplorer`'s company filter
the text changes `A` then `AA` issue two request pairs; the `AA`
response resolves first and the stale `A` response resolves last.
With no staleness guard in that effect, the final visible results are
those of the stale `A` request even though the most recent non-empty
input text is `AA` — falsifying the claim for this implementation. -/
theorem company_filter_stale_overwrite_cex :
    (explorerFilterRun trC1).results = some ("A", [cAcme]) ∧
    (explorerFilterRun trC1).reqs.getLast? = some "AA" := by
  decide

/-- Claim C1 (amended): only `TakeHomeLayout`'s company filter guards
staleness: there, any resolution that changes the visible results
carries the trim of the most recent input text (necessarily
non-empty).  `TenKFileExplorer`'s company filter has no guard: the
resolution of ANY previously issued request unconditionally overwrites
the visible results with its own merged response. -/
theorem company_filter_staleness :
    (∀ (es : List FilterEvent) (j : Nat) (rs : List (List Company))
      (t : String) (cs : List Company),
      (layoutFilterStep (layoutFilterRun es) (.resolve j rs)).results ≠
        (layoutFilterRun es).results →
      (layoutFilterStep (layoutFilterRun es) (.resolve j rs)).results =
        some (t, cs) →
      (layoutFilterRun es).lastTrim = some t ∧ t ≠ "") ∧
    (∀ (st : ExplorerFilterState) (j : Nat) (rs : List (List Company))
      (t : String),
      st.reqs[j]? = some t →
      (explorerFilterStep st (.resolve j rs)).results =
        some (t, sortCompanies (mergeByCik rs))) := by
  constructor
  · intro es j rs t cs hneq heq
    cases ha : (layoutFilterRun es).alive with
    | none => simp [layoutFilterStep, ha] at hneq
    | some kt =>
      cases kt with
      | mk k t' =>
        by_cases hjk : j = k
        · simp only [layoutFilterStep, ha, hjk, ite_true, Option.some.injEq,
            Prod.mk.injEq] at heq
          exact heq.1 ▸ layoutFilterRun_alive es k t' ha
        · simp [layoutFilterStep, ha, hjk] at hneq
  · intro st j rs t h
    simp [explorerFilterStep, h]

/-- Witness for the C1 theorem at a concrete trace. -/
theorem company_filter_staleness_witness :
    ((layoutFilterStep (layoutFilterRun [FilterEvent.input "AA"])
        (.resolve 0 rssAA)).results ≠
      (layoutFilterRun [FilterEvent.input "AA"]).results) ∧
    ((layoutFilterRun [FilterEvent.input "AA"]).lastTrim = some "AA" ∧
      "AA" ≠ "") :=
  ⟨by decide,
   company_filter_staleness.1 [FilterEvent.input "AA"] 0 rssAA "AA"
     (sortCompanies (mergeByCik rssAA)) (by decide) (by decide)⟩

/-- Claim C2: every dependency change (query, mode, or the
selected-tickers key) cancels the still-pending pass, so a stale
pass's settlement is a no-op on the machine state (its resolution is
discarded and never overwrites newer state); all passes but the most
recent one are flagged cancelled; and in the concrete mode-switch
scenario — lexical request pending, mode switched to semantic, the
semantic response resolving before the stale lexical one — the visible
response is the semantic one. -/
theorem orchestrator_stale_pass_discarded :
    (∀ (es : List OrchEvent) (j : Nat) (o : Outcome),
      j + 1 < (orchRun es).passes.length →
      orchStep (orchRun es) (.settle j o) = orchRun es) ∧
    (∀ es : List OrchEvent,
      (orchRun es).passes.dropLast.all (fun p => p.cancelled) = true) ∧
    ((orchRun trC2).store.searchResponse = some semResp ∧
      (orchRun trC2).store.searchMode = SearchMode.vector) := by
  refine ⟨?_, orchRun_wf, by decide⟩
  intro es j o hj
  have hwf := orchRun_wf es
  have hlt : j < (orchRun es).passes.length := Nat.lt_of_succ_lt hj
  have hget : (orchRun es).passes[j]? = some ((orchRun es).passes[j]) :=
    List.getElem?_eq_getElem hlt
  have hc := stale_pass_cancelled (orchRun es).passes j _ hwf hj hget
  simp [orchStep, hget, hc]

/-- Witness for the C2 theorem: in the mode-switch trace the stale
lexical settlement leaves the machine state unchanged. -/
theorem orchestrator_stale_pass_discarded_witness :
    (0 + 1 < (orchRun trC2).passes.length) ∧
    orchStep (orchRun trC2) (.settle 0 (.chunkOk lexResp)) = orchRun trC2 :=
  ⟨by decide,
   orchestrator_stale_pass_discarded.1 trC2 0 (.chunkOk lexResp) (by decide)⟩

/-- Claim C3, counterexample: two distinct selected companies share
the ticker `AAPL`; the derived ticker filter is `["AAPL", "AAPL"]` —
it contains a duplicate, and the document-search request is issued
with `tickers = "AAPL,AAPL"` — so the claimed exclusion of duplicates
from the ticker filter does not hold. -/
theorem ticker_filter_duplicates_cex :
    selectedTickers selDup = ["AAPL", "AAPL"] ∧
    ¬ (selectedTickers selDup).Nodup ∧
    plannedRequest "" .hybrid selDup =
      some (.doc "AAPL,AAPL" DOCUMENT_RESULTS_LIMIT) := by
  decide

/-- Claim C3 (amended): the ticker filter sent with any request is
recomputed from the current selection: a ticker is in the filter iff
it is non-empty and is the ticker of some currently selected company
(so no stale residue survives a deselection), with one occurrence per
selected company carrying it (duplicates retained, contrary to the
original claim); both the chunk-search and the document-search request
carry exactly this recomputed list. -/
theorem ticker_filter_recomputed :
    (∀ (sel : Selection) (t : String),
      t ∈ selectedTickers sel ↔
        (t ≠ "" ∧ ∃ c ∈ Selection.values sel, c.ticker = t)) ∧
    (∀ (sel : Selection) (k : Nat) (t : String),
      t ∈ selectedTickers (Selection.erase sel k) ↔
        (t ≠ "" ∧ ∃ p ∈ sel, p.1 ≠ k ∧ p.2.ticker = t)) ∧
    (∀ (q : String) (m : SearchMode) (sel : Selection), trimStr q ≠ "" →
      plannedRequest q m sel =
        some (.chunk m (trimStr q) SEARCH_RESULTS_LIMIT
          (if selectedTickers sel ≠ [] then some (selectedTickers sel)
           else none))) ∧
    (∀ (q : String) (m : SearchMode) (sel : Selection),
      trimStr q = "" → selectedTickers sel ≠ [] →
      plannedRequest q m sel =
        some (.doc (selectedTickersKey sel) DOCUMENT_RESULTS_LIMIT)) := by
  refine ⟨?_, ?_, ?_, ?_⟩
  · intro sel t
    simp only [selectedTickers, List.mem_filter, List.mem_map,
      decide_eq_true_eq, ne_eq]
    tauto
  · intro sel k t
    simp only [selectedTickers, Selection.erase, Selection.values,
      List.mem_filter, List.mem_map, decide_eq_true_eq, ne_eq]
    constructor
    · rintro ⟨⟨c, ⟨p, hp, hc⟩, hct⟩, ht⟩
      exact ⟨ht, p, hp.1, hp.2, hc ▸ hct⟩
    · rintro ⟨ht, p, hp, hpk, hpt⟩
      exact ⟨⟨p.2, ⟨p, ⟨hp, hpk⟩, rfl⟩, hpt⟩, ht⟩
  · intro q m sel hq
    simp [plannedRequest, hq]
  · intro q m sel hq ht
    simp [plannedRequest, hq, ht]

/-- Witness for the C3 theorem at concrete inputs. -/
theorem ticker_filter_recomputed_witness :
    (trimStr "" = "" ∧ selectedTickers selDup ≠ []) ∧
    plannedRequest "" .hybrid selDup =
      some (.doc (selectedTickersKey selDup) DOCUMENT_RESULTS_LIMIT) :=
  ⟨⟨by decide, by decide⟩,
   ticker_filter_recomputed.2.2.2 "" .hybrid selDup (by decide) (by decide)⟩

/-- Claim C6: with an empty (trimmed) query and a non-empty ticker
selection the orchestrator issues one document-search request carrying
the comma-joined selected tickers and the fixed cap; on success the
visible document list is replaced by the returned documents sorted by
year descending (a permutation of the response, with a document
lacking a usable year counted as year zero, hence never before a
positive-year document), the Document Cache is populated from the full
returned set, and the chunk-result view is cleared. -/
theorem document_branch_spec (s : Store) (docs : List DocumentMetadata)
    (q : String) (m : SearchMode) (sel : Selection)
    (hq : trimStr q = "") (ht : selectedTickers sel ≠ []) :
    plannedRequest q m sel =
      some (.doc (selectedTickersKey sel) DOCUMENT_RESULTS_LIMIT) ∧
    (applyOutcome s (.docOk docs)).documentResults = sortDocs docs ∧
    List.Sorted yearGe (applyOutcome s (.docOk docs)).documentResults ∧
    ((applyOutcome s (.docOk docs)).documentResults).Perm docs ∧
    (applyOutcome s (.docOk docs)).searchResponse = none ∧
    (∀ d ∈ docs, d.doc_id ≠ "" →
      (Cache.get (applyOutcome s (.docOk docs)).cache d.doc_id).isSome = true) ∧
    List.Pairwise (fun a b => ¬(a.year = none ∧ 0 < yearKey b))
      (applyOutcome s (.docOk docs)).documentResults := by
  refine ⟨by simp [plannedRequest, hq, ht], by simp [applyOutcome], ?_, ?_, ?_, ?_, ?_⟩
  · simp only [applyOutcome]
    exact List.sorted_insertionSort yearGe docs
  · simp only [applyOutcome]
    exact List.perm_insertionSort yearGe docs
  · simp [applyOutcome]
  · intro d hd hid
    simp only [applyOutcome]
    rw [cacheDocuments_get _ _ _ hid]
    have hmem : d ∈ sortDocs docs := by
      simpa [sortDocs] using List.mem_insertionSort yearGe |>.mpr hd
    have := lastWith_isSome_of_mem (sortDocs docs) d hmem
    cases hl : lastWith d.doc_id (sortDocs docs) with
    | none => rw [hl] at this; simp at this
    | some e => simp [hl]
  · simp only [applyOutcome]
    refine (List.sorted_insertionSort yearGe docs).imp ?_
    intro a b hab
    rintro ⟨hnone, hpos⟩
    have ha : yearKey a = 0 := by simp [yearKey, hnone]
    have : yearKey b ≤ 0 := ha ▸ hab
    omega

/-- Witness for the C6 theorem at concrete inputs (a document without
a year sorts after one from 2019). -/
theorem document_branch_spec_witness :
    (trimStr "" = "" ∧ selectedTickers [(1, cApple1)] ≠ []) ∧
    (applyOutcome initStore (.docOk [dNoYear, dA])).documentResults =
      sortDocs [dNoYear, dA] :=
  ⟨⟨by decide, by decide⟩,
   (document_branch_spec initStore [dNoYear, dA] "" .hybrid [(1, cApple1)]
     (by decide) (by decide)).2.1⟩

/-- Claim C8, counterexample: a search response with five chunk
results referencing three documents (`doc-a` twice, `doc-b` once,
`doc-c` twice), of which `doc-a` and `doc-b` are cached, issues TWO
metadata fetches — one per chunk occurrence of the single uncached
document `doc-c` — not the claimed exactly one fetch for the one
uncached document. -/
theorem enrichment_duplicate_fetch_cex :
    missingDocIds resp5 cache2 = ["doc-c", "doc-c"] ∧
    (missingDocIds resp5 cache2).length = 2 := by
  decide

/-- Claim C8 (amended): after a successful chunk search, metadata is
fetched once per result chunk whose non-empty `doc_id` is absent from
the Document Cache (an uncached document referenced by several chunks
is fetched once per referencing chunk; as a set, the fetched ids are
exactly the uncached referenced doc ids); each individual fetch
failure drops only that document from enrichment — any id whose fetch
succeeds is cached regardless of other fetches failing — and the
chunk results are displayed independently of enrichment (the response
is written by the settle itself). -/
theorem enrichment_missing_ids_spec :
    (∀ (resp : SearchResponse) (c : Cache) (id : String),
      id ∈ missingDocIds resp c ↔
        (id ∈ resp.results.map SearchResultItem.doc_id ∧ id ≠ "" ∧
          Cache.get c id = none)) ∧
    (∀ (resp : SearchResponse) (c : Cache)
      (fetch : String → Option DocumentMetadata) (id : String)
      (d : DocumentMetadata),
      (∀ id' d', fetch id' = some d' → d'.doc_id = id') →
      fetch id = some d → id ∈ missingDocIds resp c →
      Cache.get (enrichCache resp c fetch) id = some d) ∧
    (∀ (s : Store) (resp : SearchResponse),
      (applyOutcome s (.chunkOk resp)).searchResponse = some resp ∧
      (applyOutcome s (.chunkOk resp)).documentResults = []) := by
  refine ⟨missingDocIds_mem, ?_, ?_⟩
  · intro resp c fetch id d hf hid hmem
    have hne : id ≠ "" := ((missingDocIds_mem resp c id).mp hmem).2.1
    rw [enrichCache, cacheDocuments_get _ _ _ hne,
      lastWith_filterMap (missingDocIds resp c) fetch id d hf hid hmem]
  · intro s resp
    simp [applyOutcome]

/-- Witness for the C8 theorem: the uncached `doc-c` is fetched and
cached even though every other fetch fails. -/
theorem enrichment_missing_ids_spec_witness :
    ((fun i => if i = "doc-c" then some dC else none) "doc-c" = some dC ∧
      "doc-c" ∈ missingDocIds resp5 cache2) ∧
    Cache.get
      (enrichCache resp5 cache2
        (fun i => if i = "doc-c" then some dC else none)) "doc-c" = some dC :=
  ⟨⟨by decide, by decide⟩,
   enrichment_missing_ids_spec.2.1 resp5 cache2
     (fun i => if i = "doc-c" then some dC else none) "doc-c" dC
     (fun id' d' h => by
       by_cases hi : id' = "doc-c"
       · subst hi
         have h2 : some dC = some d' := h
         injection h2 with h3
         rw [← h3]
         rfl
       · simp [hi] at h)
     (by decide) (by decide)⟩

/-- Claim C4, counterexample: both company-filter responses contain a
company with the same `cik` but different field values; the merge
keeps the entry of the LATER response, so a duplicate-key collision
does overwrite the earlier entry, contrary to the claimed
"later response does not overwrite earlier — dedupe only". -/
theorem company_merge_overwrite_cex :
    mergeByCik [[cApple1], [cApple2]] = [cApple2] ∧
    cApple1.cik = cApple2.cik ∧ cApple1 ≠ cApple2 := by
  decide

/-- Claim C4 (amended): the two company-filter responses are merged by
`cik` with last-write-wins semantics — the merged list holds, for each
`cik`, the LAST company with that `cik` across the concatenated
responses, with exactly one entry per `cik` — and the visible list is
the merge sorted case-insensitively by company name ascending (a
permutation of the merged list, sorted under `nameLe`). -/
theorem company_merge_last_wins_sorted :
    (∀ (rss : List (List Company)) (k : Nat),
      lookupCik (mergeFold rss.flatten) k = lastCompanyWith k rss.flatten) ∧
    (∀ rss : List (List Company),
      ((mergeFold rss.flatten).map Prod.fst).Nodup) ∧
    (∀ rss : List (List Company),
      List.Sorted nameLe (sortCompanies (mergeByCik rss)) ∧
      (sortCompanies (mergeByCik rss)).Perm (mergeByCik rss)) := by
  refine ⟨?_, ?_, ?_⟩
  · intro rss k
    rw [mergeFold, lookupCik_foldl_mapSet]
    cases lastCompanyWith k rss.flatten <;> simp [lookupCik]
  · intro rss
    exact mergeFold_keys_nodup rss.flatten
  · intro rss
    exact ⟨List.sorted_insertionSort nameLe (mergeByCik rss),
           List.perm_insertionSort nameLe (mergeByCik rss)⟩

/-- Claim C5: when an orchestrator request fails (either branch throws
into the shared `catch`), exactly one user-facing error message is
set, both the chunk-result view and the document-result view are
cleared, and the company selection and the search mode are left
unchanged. -/
theorem orchestrator_failure_single_error (s : Store) (msg : String) :
    (applyOutcome s (.fail msg)).resultsError = some msg ∧
    (applyOutcome s (.fail msg)).searchResponse = none ∧
    (applyOutcome s (.fail msg)).documentResults = [] ∧
    (applyOutcome s (.fail msg)).selected = s.selected ∧
    (applyOutcome s (.fail msg)).searchMode = s.searchMode := by
  simp [applyOutcome]

/-- Claim C7: `cacheDocuments` (the Document Cache `putAll`) inserts
or overwrites the mapping for each input with a non-empty `doc_id`
(the last input for a key wins), never inserts and never overwrites
for entries with an empty/missing `doc_id`, and with one well-formed
entry plus one `doc_id`-less entry it produces exactly one new cache
entry. -/
theorem cache_putAll_spec :
    (∀ (docs : List DocumentMetadata) (c : Cache) (k : String), k ≠ "" →
      Cache.get (cacheDocuments docs c) k =
        match lastWith k docs with
        | some d => some d
        | none => Cache.get c k) ∧
    (∀ (docs : List DocumentMetadata) (c : Cache),
      (∀ d ∈ docs, d.doc_id = "") → cacheDocuments docs c = c) ∧
    (Cache.size (cacheDocuments [dA, dNoId] []) = 1 ∧
      Cache.get (cacheDocuments [dA, dNoId] []) "doc-a" = some dA) :=
  ⟨fun docs c k hk => cacheDocuments_get docs c k hk,
   fun docs c h => cacheDocuments_skip docs c h,
   by decide, by decide⟩

/-- Witness for C7 at concrete inputs. -/
theorem cache_putAll_spec_witness :
    ("doc-a" ≠ "" ∧
      Cache.get (cacheDocuments [dA, dNoId] cache2) "doc-a" =
        match lastWith "doc-a" [dA, dNoId] with
        | some d => some d
        | none => Cache.get cache2 "doc-a") :=
  ⟨by decide, cache_putAll_spec.1 [dA, dNoId] cache2 "doc-a" (by decide)⟩

/-- Claim C9, counterexample: a document view is opened (metadata
available as fallback, the section fetch still pending) and then
closed; the pending section fetch resolves afterwards and repopulates
the closed view's section state — the claimed invalidation of pending
drawer fetches on close does not exist in the code. -/
theorem drawer_late_response_cex :
    (drawerRun [] trC9).activeDocId = none ∧
    (drawerRun [] trC9).activeSections = some [secBiz] := by
  decide

/-- Claim C9 (amended): the drawer resolutions carry no relevance
token.  A late metadata or section resolution never changes
`activeDocId` — so it cannot reopen a closed view — but it always
writes the metadata/section/loading state, so closing the view or
switching documents does NOT prevent a late response from
repopulating that state. -/
theorem drawer_no_reopen_but_repopulates :
    (∀ (st : DrawerState) (r : Fetched DocumentMetadata),
      (drawerStep st (.metaResolve r)).activeDocId = st.activeDocId) ∧
    (∀ (st : DrawerState) (r : Fetched (List DocumentSection)),
      (drawerStep st (.sectionsResolve r)).activeDocId = st.activeDocId) ∧
    (∀ (st : DrawerState) (secs : List DocumentSection),
      (drawerStep st (.sectionsResolve (.ok secs))).activeSections = some secs ∧
      (drawerStep st (.sectionsResolve (.ok secs))).drawerLoading = false) ∧
    (∀ (st : DrawerState) (d : DocumentMetadata),
      (drawerStep st (.metaResolve (.ok d))).activeDocMeta = some d) := by
  refine ⟨?_, ?_, ?_, ?_⟩
  · intro st r
    cases r <;> simp [drawerStep]
  · intro st r
    cases r <;> simp [drawerStep]
  · intro st secs
    simp [drawerStep]
  · intro st d
    simp [drawerStep]

/-- Claim C10: after any trace of dependency changes and request
settlements, the chunk-result view and the document-result view are
never simultaneously populated: every settle branch that writes one
view clears the other, and the idle/error branches clear both. -/
theorem result_views_mutually_exclusive (es : List OrchEvent) :
    (orchRun es).store.searchResponse = none ∨
    (orchRun es).store.documentResults = [] := by
  have h : ∀ (es : List OrchEvent) (s : OrchState),
      (s.store.searchResponse = none ∨ s.store.documentResults = []) →
      ((es.foldl orchStep s).store.searchResponse = none ∨
        (es.foldl orchStep s).store.documentResults = []) := by
    intro es
    induction es with
    | nil => intro s hs; simpa using hs
    | cons e es ih =>
      intro s hs
      exact ih _ (orchStep_views s hs e)
  exact h es _ (Or.inl rfl)

end TenK


